import Mathlib

/-!
# Verification of the ibsforts-plugin-babel file/source-map pipeline

A shallow embedding of the post-compilation Babel transform stage found in
`lib/index.js` (class `BabelPlugin`, the current compiled implementation) and
`src/index.ts` (the older free-function implementation `babelTransform` /
`babelTransformDebug`).

External collaborators — the Babel transform engine (`babel.transform`), the
JavaScript JSON built-ins (`JSON.parse` / `JSON.stringify`) — are parameters of
the embedding (an `Externals` record), exactly as the design treats them: opaque
capabilities.  JavaScript exceptions and promise rejections are modelled by the
`JsResult` type; the per-invocation shared mutable options object is modelled by
explicit state passing of an `IOptions` value through the batch fold.
-/

/-- JavaScript values as produced by `JSON.parse`: the JSON data model.
Numbers are modelled as integers (the only numeric fact the pipeline ever
observes is falsiness of `0`).  An `obj` holds the parsed object's fields
(duplicate keys already collapsed, as `JSON.parse` does). -/
inductive Json where
  | null
  | bool (b : Bool)
  | num (n : Int)
  | str (s : String)
  | arr (elems : List Json)
  | obj (fields : List (String × Json))

/-- JavaScript truthiness of a JSON value (`if (v)`). -/
def Json.truthy : Json → Bool
  | .null => false
  | .bool b => b
  | .num n => n != 0
  | .str s => !s.isEmpty
  | .arr _ => true
  | .obj _ => true

/-- JavaScript member access `v.key` on a JSON value: a field of an object,
`undefined` (`none`) otherwise. -/
def Json.getField : Json → String → Option Json
  | .obj fields, key => (fields.find? (fun kv => kv.1 == key)).map (fun kv => kv.2)
  | _, _ => none

/-- Truthiness of a possibly-`undefined` JavaScript value (`undefined` is falsy). -/
def jsTruthy : Option Json → Bool
  | none => false
  | some j => j.truthy

/-- The result of a JavaScript computation that may throw: either a value or a
thrown error (which a promise chain surfaces as a rejection). -/
inductive JsResult (α : Type) where
  | ok (value : α)
  | thrown (err : String)
deriving Repr, DecidableEq

/-- JavaScript indexing `v[0]` applied to a possibly-`undefined` value, as used
for `inMap.sources[0]`: throws a `TypeError` on `undefined`/`null`, yields the
first element of an array (or `undefined` when empty), the first character of a
string, the `"0"` field of an object, and `undefined` on other primitives. -/
def jsIndex0 : Option Json → JsResult (Option Json)
  | none => .thrown "TypeError: Cannot read properties of undefined (reading 0)"
  | some Json.null => .thrown "TypeError: Cannot read properties of null (reading 0)"
  | some (Json.arr elems) => .ok elems.head?
  | some (Json.str s) => .ok (if s.isEmpty then none else some (Json.str (String.singleton s.front)))
  | some (Json.obj fields) => .ok (Json.getField (Json.obj fields) "0")
  | some (Json.num _) => .ok none
  | some (Json.bool _) => .ok none

/-- Shape `ts.OutputFile`: the compiler-output file shape consumed and produced by the
pipeline. -/
structure OutputFile where
  name : String
  text : String
  writeByteOrderMark : Bool
deriving Repr, DecidableEq

/-- The only comment-printing predicate this pipeline ever installs into the
Babel options (`shouldPrintComment: comment => !isSourceMappingURLComment(comment)`). -/
inductive CommentFilter where
  | notSourceMappingURL
deriving Repr, DecidableEq

/-- Function `isSourceMappingURLComment` from the source: the regular expression
`/^\# sourceMappingURL\=/` tests whether the comment starts with
`"# sourceMappingURL="`. -/
def isSourceMappingURLComment (comment : String) : Bool :=
  comment.startsWith "# sourceMappingURL="

/-- Semantics of an installed comment filter. -/
def CommentFilter.eval : CommentFilter → String → Bool
  | .notSourceMappingURL, comment => !isSourceMappingURLComment comment

/-- Options `babel.IOptions`, restricted to the recognized keys this pipeline reads or
writes (`filename`, `filenameRelative`, `sourceMaps`, `sourceRoot`,
`sourceFileName`, `sourceMapTarget`, `inputSourceMap`, `ast`,
`shouldPrintComment`); every other caller-supplied option is carried opaquely in
`rest` and never touched.  A field holding `none` models both an absent property
and one set to `undefined` (indistinguishable to every consumer involved). -/
structure IOptions where
  filename : Option Json := none
  filenameRelative : Option Json := none
  sourceMaps : Option Json := none
  sourceRoot : Option Json := none
  sourceFileName : Option Json := none
  sourceMapTarget : Option Json := none
  inputSourceMap : Option Json := none
  ast : Option Json := none
  shouldPrintComment : Option CommentFilter := none
  rest : List (String × Json) := []

/-- The `{code, map}` record returned by the Babel transform engine. -/
structure TransformResult where
  code : String
  map : Option Json

/-- The external collaborators of the pipeline, treated as opaque capabilities:
the Babel transform engine and the JavaScript JSON built-ins. -/
structure Externals where
  transform : String → IOptions → JsResult TransformResult
  jsonParse : String → JsResult Json
  stringify : Json → String

/-- JavaScript `s.endsWith(suffix)` (also lodash `_(s).endsWith(suffix)`):
the suffix's characters are a suffix of the string's characters. -/
def strEndsWith (s suffix : String) : Bool :=
  decide (suffix.data <:+ s.data)

/-- Models Node `path.basename` for POSIX paths without trailing separators:
the part of the name after the last `/`. -/
def basename (p : String) : String :=
  ⟨(p.data.reverse.takeWhile (fun c => c ≠ '/')).reverse⟩

/-- Function `findSourceMapFile` from the source: locate the sidecar source-map file of
`sourceFile` in `files` — `undefined` when `sourceFile` is itself a map file,
otherwise the first file named `sourceFile.name + ".map"`. -/
def findSourceMapFile (sourceFile : OutputFile) (files : List OutputFile) : Option OutputFile :=
  if !(strEndsWith sourceFile.name ".map") then
    let mapFilename := sourceFile.name ++ ".map"
    let mapFiles := files.filter (fun candidate => candidate.name == mapFilename)
    match mapFiles with
    | firstMatch :: _ => some firstMatch
    | [] => none
  else
    none

/-- The reset performed when no (truthy) input map exists:
`options.sourceMaps = false` and the four residual map fields deleted. -/
def clearSourceMapOptions (options : IOptions) : IOptions :=
  { options with
    sourceMaps := some (Json.bool false),
    sourceRoot := none,
    sourceFileName := none,
    sourceMapTarget := none,
    inputSourceMap := none }

/-- The option mutation performed when a truthy input map `inMap` was parsed:
enable map generation and populate the map-related fields from the parsed
document (`sources[0]` access may throw). -/
def setSourceMapOptions (options : IOptions) (inMap : Json) : JsResult IOptions :=
  match jsIndex0 (inMap.getField "sources") with
  | .thrown e => .thrown e
  | .ok sourceFileName0 =>
    .ok { options with
      sourceMaps := some (Json.bool true),
      sourceRoot := inMap.getField "sourceRoot",
      sourceFileName := sourceFileName0,
      sourceMapTarget := inMap.getField "file",
      inputSourceMap := some inMap }

/-- Function `transformFile` from the source: transform one eligible file.  Returns the
produced output files (1 or 2) together with the options object as left after
this file's processing (the source mutates a shared options object; the
embedding threads it explicitly). -/
def transformFile (ext : Externals) (inFile : OutputFile) (options : IOptions)
    (files : List OutputFile) : JsResult (List OutputFile × IOptions) :=
  let options := { options with
    filename := some (Json.str inFile.name),
    filenameRelative := some (Json.str inFile.name) }
  let inMapFile := findSourceMapFile inFile files
  let parsed : JsResult (Option Json) :=
    match inMapFile with
    | some mapFile =>
      match ext.jsonParse mapFile.text with
      | .ok inMap => .ok (some inMap)
      | .thrown e => .thrown e
    | none => .ok none
  match parsed with
  | .thrown e => .thrown e
  | .ok inMap =>
    let optionsStep : JsResult IOptions :=
      match inMap with
      | some m => if m.truthy then setSourceMapOptions options m else .ok (clearSourceMapOptions options)
      | none => .ok (clearSourceMapOptions options)
    match optionsStep with
    | .thrown e => .thrown e
    | .ok options =>
      match ext.transform inFile.text options with
      | .thrown e => .thrown e
      | .ok result =>
        let fileName := basename inFile.name
        let sourceMappingURL :=
          if jsTruthy result.map then "\n//# sourceMappingURL=" ++ fileName ++ ".map" else ""
        let code := if jsTruthy result.map then result.code ++ sourceMappingURL else result.code
        let outSourceFile : OutputFile :=
          { name := inFile.name, text := code, writeByteOrderMark := inFile.writeByteOrderMark }
        match inMapFile, result.map with
        | some mapFile, some mapJson =>
          if mapJson.truthy then
            .ok ([outSourceFile,
                  { name := mapFile.name,
                    text := ext.stringify mapJson,
                    writeByteOrderMark := mapFile.writeByteOrderMark }], options)
          else
            .ok ([outSourceFile], options)
        | _, _ => .ok ([outSourceFile], options)

/-- Predicate `shouldTransformFile` from `lib/index.js`. -/
def shouldTransformFile (fileName : String) : Bool :=
  strEndsWith fileName ".js" || strEndsWith fileName ".jsx"

/-- Predicate `shouldDiscardFile` from `lib/index.js`. -/
def shouldDiscardFile (fileName : String) : Bool :=
  strEndsWith fileName ".map"

/-- The `_.extend(options, optionsOverride)` step: install `ast: false` and the
sourcemap-comment-suppressing `shouldPrintComment` predicate. -/
def applyOptionsOverride (options : IOptions) : IOptions :=
  { options with
    ast := some (Json.bool false),
    shouldPrintComment := some CommentFilter.notSourceMappingURL }

namespace BabelPlugin

/-- The `reduce` inside `BabelPlugin.prototype.babelTransform` (`lib/index.js`):
a strict left-to-right fold over the input batch with the fixed original batch
`ctx` as lookup context, threading the shared options object. -/
def runBatch (ext : Externals) (ctx : List OutputFile) :
    List OutputFile → IOptions → JsResult (List OutputFile × IOptions)
  | [], options => .ok ([], options)
  | inputFile :: fs, options =>
    if shouldTransformFile inputFile.name then
      match transformFile ext inputFile options ctx with
      | .thrown e => .thrown e
      | .ok (outs, options') =>
        match runBatch ext ctx fs options' with
        | .thrown e => .thrown e
        | .ok (restOuts, options'') => .ok (outs ++ restOuts, options'')
    else if shouldDiscardFile inputFile.name then
      runBatch ext ctx fs options
    else
      match runBatch ext ctx fs options with
      | .thrown e => .thrown e
      | .ok (restOuts, options') => .ok (inputFile :: restOuts, options')

/-- Method `BabelPlugin.prototype.babelTransform` (`lib/index.js`): the batch
orchestrator with transform / discard / pass-through classification.
`babelOptions` is the plugin's shared options object (the constructor has
already applied `applyOptionsOverride` to it; the claims quantify over it). -/
def babelTransform (ext : Externals) (babelOptions : IOptions)
    (inputFiles : List OutputFile) : JsResult (List OutputFile) :=
  match runBatch ext inputFiles inputFiles babelOptions with
  | .thrown e => .thrown e
  | .ok (outs, _) => .ok outs

end BabelPlugin

/-- The `reduce` inside the free function `babelTransform` (`src/index.ts`):
files ending in `.map` are skipped, every other file is handed to
`transformFile`. -/
def runBatchTS (ext : Externals) (ctx : List OutputFile) :
    List OutputFile → IOptions → JsResult (List OutputFile × IOptions)
  | [], options => .ok ([], options)
  | inputFile :: fs, options =>
    if strEndsWith inputFile.name ".map" then
      runBatchTS ext ctx fs options
    else
      match transformFile ext inputFile options ctx with
      | .thrown e => .thrown e
      | .ok (outs, options') =>
        match runBatchTS ext ctx fs options' with
        | .thrown e => .thrown e
        | .ok (restOuts, options'') => .ok (outs ++ restOuts, options'')

/-- The free function `babelTransform` (`src/index.ts`): extends the options
with the override, then folds over the batch. -/
def babelTransform (ext : Externals) (inputFiles : List OutputFile)
    (options : IOptions) : JsResult (List OutputFile) :=
  let options := applyOptionsOverride options
  match runBatchTS ext inputFiles inputFiles options with
  | .thrown e => .thrown e
  | .ok (outs, _) => .ok outs

/-- Behavior of `Promise.all` over a list of settled unit promises: resolves when all
resolved, otherwise rejects with the first rejection. -/
def promiseAllUnit : List (JsResult Unit) → JsResult Unit
  | [] => .ok ()
  | .ok _ :: rest => promiseAllUnit rest
  | .thrown e :: _ => .thrown e

/-- The free function `babelTransformDebug` (`src/index.ts`): run `debugInput`
over every input file, then the plain transform, then `debugOutput` over every
result file, resolving with the unmodified result batch. -/
def babelTransformDebug (ext : Externals) (files : List OutputFile)
    (options : IOptions) (debugInput debugOutput : OutputFile → JsResult Unit) :
    JsResult (List OutputFile) :=
  match promiseAllUnit (files.map debugInput) with
  | .thrown e => .thrown e
  | .ok _ =>
    match babelTransform ext files options with
    | .thrown e => .thrown e
    | .ok transformedFiles =>
      match promiseAllUnit (transformedFiles.map debugOutput) with
      | .thrown e => .thrown e
      | .ok _ => .ok transformedFiles

/-- The assumption that the external transform engine respects disabled
source-map generation: invoked with `sourceMaps: false` it produces no (truthy)
map — Babel's documented behavior for the `sourceMaps` option. -/
def respectsSourceMaps (transform : String → IOptions → JsResult TransformResult) : Prop :=
  ∀ text options result, options.sourceMaps = some (Json.bool false) →
    transform text options = .ok result → jsTruthy result.map = false

-- Concrete external collaborators used to exercise the pipeline on closed inputs.

/-- A concrete transform engine that leaves code untouched and always produces
a map. -/
def toyTransformAlways : String → IOptions → JsResult TransformResult :=
  fun text _ => .ok { code := text, map := some (Json.obj []) }

/-- A concrete transform engine that leaves code untouched and never produces a
map. -/
def toyTransformNever : String → IOptions → JsResult TransformResult :=
  fun text _ => .ok { code := text, map := none }

/-- The text of a well-formed sidecar map used on closed inputs. -/
def sampleMapText : String := "\x7b\x22sources\x22:[\x22a.ts\x22],\x22file\x22:\x22a.js\x22\x7d"

/-- The parsed form of `sampleMapText`. -/
def sampleMapJson : Json :=
  Json.obj [("sources", Json.arr [Json.str "a.ts"]), ("file", Json.str "a.js")]

/-- A concrete JSON parser covering the handful of map texts used on closed
inputs; anything else is a syntax error. -/
def toyJsonParse : String → JsResult Json :=
  fun text =>
    if text = "null" then .ok Json.null
    else if text = sampleMapText then
      .ok sampleMapJson
    else .thrown "SyntaxError: Unexpected token"

/-- A concrete JSON serializer (its exact output never matters to any claim). -/
def toyStringify : Json → String := fun _ => "\x7b\x7d"

/-- Concrete externals whose engine always produces a map. -/
def toyExternalsAlways : Externals :=
  { transform := toyTransformAlways, jsonParse := toyJsonParse, stringify := toyStringify }

/-- Concrete externals whose engine never produces a map. -/
def toyExternalsNever : Externals :=
  { transform := toyTransformNever, jsonParse := toyJsonParse, stringify := toyStringify }

/-- The outcome the orchestrator's classification assigns to one input file:
a transformable file contributes a `transformFile` result (for the options
state current when it was reached), a map file contributes nothing, and every
other file passes through unchanged. -/
def classifiedPiece (ext : Externals) (ctx : List OutputFile) (f : OutputFile)
    (piece : List OutputFile) : Prop :=
  if shouldTransformFile f.name = true then
    ∃ o o', transformFile ext f o ctx = .ok (piece, o')
  else if shouldDiscardFile f.name = true then
    piece = []
  else
    piece = [f]

/-- Sequencing of two batch-transform results: concatenate the output batches,
rejecting with the first rejection.  A batch run satisfies per-file output
equality with single-file runs exactly when it equals the `jsSeq` of those
runs, since per-file outputs concatenate in input order. -/
def jsSeq (a b : JsResult (List OutputFile)) : JsResult (List OutputFile) :=
  match a, b with
  | .thrown e, _ => .thrown e
  | .ok _, .thrown e => .thrown e
  | .ok xs, .ok ys => .ok (xs ++ ys)

example : strEndsWith "a.js" ".js" = true := by decide
example : strEndsWith "a.js" ".map" = false := by decide
example : basename "dir/a.js" = "a.js" := by rfl
example : basename "a.js" = "a.js" := by rfl
example :
    BabelPlugin.babelTransform toyExternalsNever {} [⟨"b.js", "t", false⟩] =
      .ok [⟨"b.js", "t", false⟩] := by decide
example :
    BabelPlugin.babelTransform toyExternalsAlways {}
      [⟨"a.js", "x", false⟩, ⟨"a.js.map", "\x7b\x22sources\x22:[\x22a.ts\x22],\x22file\x22:\x22a.js\x22\x7d", true⟩] =
      .ok [⟨"a.js", "x\n//# sourceMappingURL=a.js.map", false⟩, ⟨"a.js.map", "\x7b\x7d", true⟩] := by decide

/-! ## Basic lemmas about the suffix classification -/

theorem strEndsWith_iff {s suffix : String} :
    strEndsWith s suffix = true ↔ suffix.data <:+ s.data := by
  simp [strEndsWith]

theorem endsWith_last_char {s t : String} {c : Char}
    (h : strEndsWith s t = true) (hc : t.data.getLast? = some c) :
    s.data.getLast? = some c := by
  obtain ⟨u, hu⟩ := strEndsWith_iff.mp h
  have hne : t.data ≠ [] := by
    intro hnil
    rw [hnil] at hc
    exact Option.noConfusion hc
  rw [← hu, List.getLast?_append_of_ne_nil u hne, hc]

theorem shouldDiscard_not_transform {s : String} (h : shouldDiscardFile s = true) :
    shouldTransformFile s = false := by
  have hp : s.data.getLast? = some 'p' := by
    simp only [shouldDiscardFile] at h
    exact endsWith_last_char h (by decide)
  simp only [shouldTransformFile, Bool.or_eq_false_iff]
  refine ⟨?_, ?_⟩
  · cases hjs : strEndsWith s ".js" with
    | false => rfl
    | true =>
      have hs := endsWith_last_char hjs (by decide : (".js".data.getLast? = some 's'))
      rw [hp] at hs
      exact absurd hs (by decide)
  · cases hjx : strEndsWith s ".jsx" with
    | false => rfl
    | true =>
      have hx := endsWith_last_char hjx (by decide : (".jsx".data.getLast? = some 'x'))
      rw [hp] at hx
      exact absurd hx (by decide)

theorem head_filter_eq_find {α : Type} (p : α → Bool) :
    ∀ l : List α, (l.filter p).head? = l.find? p
  | [] => rfl
  | a :: l => by
    by_cases h : p a
    · simp [List.filter_cons, List.find?_cons, h]
    · simp [List.filter_cons, List.find?_cons, h, head_filter_eq_find p l]

/-- C6: The map locator returns absent for files whose name ends in `.map`, and
otherwise returns the first batch element named `source.name + ".map"` (absent
if none); being a plain function of its two arguments, it is pure. -/
theorem findSourceMapFile_spec (src : OutputFile) (files : List OutputFile) :
    findSourceMapFile src files =
      if strEndsWith src.name ".map" = true then none
      else files.find? (fun candidate => candidate.name == src.name ++ ".map") := by
  unfold findSourceMapFile
  by_cases h : strEndsWith src.name ".map" = true
  · simp [h]
  · rw [← head_filter_eq_find]
    simp only [h, Bool.not_eq_true] at h ⊢
    simp only [h, Bool.not_false, if_true, if_false]
    cases files.filter (fun candidate => candidate.name == src.name ++ ".map") <;> simp

theorem promiseAllUnit_replicate (n : Nat) :
    promiseAllUnit (List.replicate n (JsResult.ok ())) = .ok () := by
  induction n with
  | zero => rfl
  | succ n ih => simpa [promiseAllUnit, List.replicate_succ] using ih

theorem promiseAllUnit_noop (l : List OutputFile) :
    promiseAllUnit (l.map (fun _ => JsResult.ok ())) = .ok () := by
  induction l with
  | nil => rfl
  | cons a l ih => simpa [promiseAllUnit] using ih

/-- C9: The debug-instrumented entry point with no-op hooks resolves with
exactly the result of the plain batch transform on the same inputs; the hooks'
return values never alter the transformed result. -/
theorem babelTransformDebug_noop (ext : Externals) (files : List OutputFile)
    (options : IOptions) :
    babelTransformDebug ext files options (fun _ => .ok ()) (fun _ => .ok ()) =
      babelTransform ext files options := by
  unfold babelTransformDebug
  rw [promiseAllUnit_noop]
  cases h : babelTransform ext files options with
  | thrown e => rfl
  | ok transformed => simp [promiseAllUnit_noop, promiseAllUnit_replicate]

/-- C2: For a batch `[a.js, a.js.map]` whose map text is valid map JSON and a
transform that produces a map, the batch transform produces exactly two files,
in order: `a.js` whose text ends with the reference comment
`"\n//# sourceMappingURL=a.js.map"`, then `a.js.map` whose text is the JSON
serialization of the newly produced map. -/
theorem claim2_mapPairing (ext : Externals) (opts : IOptions) (aText mText : String)
    (aBom mBom : Bool) (v mapJson : Json) (s0 : Option Json) (r : TransformResult)
    (hparse : ext.jsonParse mText = .ok v)
    (htruthy : v.truthy = true)
    (hsources : jsIndex0 (v.getField "sources") = .ok s0)
    (htransform : ∀ o, ext.transform aText o = .ok r)
    (hmap : r.map = some mapJson) (hmt : mapJson.truthy = true) :
    BabelPlugin.babelTransform ext opts
        [⟨"a.js", aText, aBom⟩, ⟨"a.js.map", mText, mBom⟩] =
      .ok [⟨"a.js", r.code ++ "\n//# sourceMappingURL=a.js.map", aBom⟩,
           ⟨"a.js.map", ext.stringify mapJson, mBom⟩] := by
  have hfind : findSourceMapFile ⟨"a.js", aText, aBom⟩
      [⟨"a.js", aText, aBom⟩, ⟨"a.js.map", mText, mBom⟩] =
      some ⟨"a.js.map", mText, mBom⟩ := rfl
  have hb : basename "a.js" = "a.js" := rfl
  simp [BabelPlugin.babelTransform, BabelPlugin.runBatch, transformFile, hfind, hb,
    setSourceMapOptions, hparse, htruthy, hsources, htransform, hmap, hmt, jsTruthy,
    (by decide : shouldTransformFile "a.js" = true),
    (by decide : shouldTransformFile "a.js.map" = false),
    (by decide : shouldDiscardFile "a.js.map" = true)]

/-- C3: For a batch `[c.js, c.js.map]`, if the transform engine returns a result
with no map, the output is exactly one file named `c.js` with no appended
map-reference comment, and the original `c.js.map` does not reappear. -/
theorem claim3_mapDrop (ext : Externals) (opts : IOptions) (cText mText : String)
    (cBom mBom : Bool) (v : Json) (s0 : Option Json) (r : TransformResult)
    (hparse : ext.jsonParse mText = .ok v)
    (htruthy : v.truthy = true)
    (hsources : jsIndex0 (v.getField "sources") = .ok s0)
    (htransform : ∀ o, ext.transform cText o = .ok r)
    (hmap : r.map = none) :
    BabelPlugin.babelTransform ext opts
        [⟨"c.js", cText, cBom⟩, ⟨"c.js.map", mText, mBom⟩] =
      .ok [⟨"c.js", r.code, cBom⟩] := by
  have hfind : findSourceMapFile ⟨"c.js", cText, cBom⟩
      [⟨"c.js", cText, cBom⟩, ⟨"c.js.map", mText, mBom⟩] =
      some ⟨"c.js.map", mText, mBom⟩ := rfl
  simp [BabelPlugin.babelTransform, BabelPlugin.runBatch, transformFile, hfind,
    setSourceMapOptions, hparse, htruthy, hsources, htransform, hmap, jsTruthy,
    (by decide : shouldTransformFile "c.js" = true),
    (by decide : shouldTransformFile "c.js.map" = false),
    (by decide : shouldDiscardFile "c.js.map" = true)]

/-! ## Per-file lemmas about transformFile -/

theorem clearSourceMapOptions_sourceMaps (o : IOptions) :
    (clearSourceMapOptions o).sourceMaps = some (Json.bool false) := rfl

/-- When the locator finds no sidecar map, `transformFile` runs the engine on
the cleared configuration and emits a single output file. -/
theorem transformFile_noMap (ext : Externals) (f : OutputFile) (opts : IOptions)
    (ctx : List OutputFile) (hfind : findSourceMapFile f ctx = none) :
    ∃ oUsed,
      oUsed = clearSourceMapOptions { opts with
        filename := some (Json.str f.name), filenameRelative := some (Json.str f.name) } ∧
      transformFile ext f opts ctx =
        match ext.transform f.text oUsed with
        | .thrown e => .thrown e
        | .ok r =>
          .ok ([{ name := f.name,
                  text := if jsTruthy r.map then
                      r.code ++ ("\n//# sourceMappingURL=" ++ basename f.name ++ ".map")
                    else r.code,
                  writeByteOrderMark := f.writeByteOrderMark }], oUsed) := by
  refine ⟨_, rfl, ?_⟩
  simp only [transformFile, hfind]
  cases htr : ext.transform f.text (clearSourceMapOptions { opts with
      filename := some (Json.str f.name), filenameRelative := some (Json.str f.name) }) with
  | thrown e => rfl
  | ok r =>
    cases hm : r.map with
    | none => simp [hm, jsTruthy]
    | some mapJson => cases hmt : mapJson.truthy <;> simp [jsTruthy, hm, hmt]

/-- C7: For a batch containing only a transformable `b.js` with no sidecar map,
the batch transform (with an engine that respects disabled map generation)
produces exactly one output, named `b.js`, whose text is the raw engine output
with no trailing map-reference comment, and no map file. -/
theorem claim7_mapAbsence (ext : Externals) (opts : IOptions) (bText : String)
    (bBom : Bool) (out : List OutputFile)
    (hresp : respectsSourceMaps ext.transform)
    (h : BabelPlugin.babelTransform ext opts [⟨"b.js", bText, bBom⟩] = .ok out) :
    ∃ o r, ext.transform bText o = .ok r ∧ out = [⟨"b.js", r.code, bBom⟩] := by
  obtain ⟨oUsed, hoUsed, heq⟩ :=
    transformFile_noMap ext ⟨"b.js", bText, bBom⟩ opts [⟨"b.js", bText, bBom⟩] rfl
  simp only [BabelPlugin.babelTransform, BabelPlugin.runBatch,
    (by decide : shouldTransformFile "b.js" = true), if_true, heq] at h
  cases htr : ext.transform bText oUsed with
  | thrown e => rw [htr] at h; exact absurd h (by simp)
  | ok r =>
    have hm : jsTruthy r.map = false :=
      hresp bText oUsed r (by rw [hoUsed]; rfl) htr
    rw [htr] at h
    simp only [hm, Bool.false_eq_true, if_false] at h
    refine ⟨oUsed, r, htr, ?_⟩
    simpa using h.symm

/-- When the locator finds a sidecar whose text parses to a falsy JSON value,
`transformFile` (with an engine that respects disabled map generation) runs the
engine on the cleared configuration and emits a single output file. -/
theorem transformFile_falsyMap (ext : Externals) (f : OutputFile) (opts : IOptions)
    (ctx : List OutputFile) (m : OutputFile) (v : Json)
    (hresp : respectsSourceMaps ext.transform)
    (hfind : findSourceMapFile f ctx = some m)
    (hparse : ext.jsonParse m.text = .ok v)
    (hfalsy : v.truthy = false) :
    ∃ oUsed,
      oUsed = clearSourceMapOptions { opts with
        filename := some (Json.str f.name), filenameRelative := some (Json.str f.name) } ∧
      transformFile ext f opts ctx =
        match ext.transform f.text oUsed with
        | .thrown e => .thrown e
        | .ok r =>
          .ok ([{ name := f.name,
                  text := if jsTruthy r.map then
                      r.code ++ ("\n//# sourceMappingURL=" ++ basename f.name ++ ".map")
                    else r.code,
                  writeByteOrderMark := f.writeByteOrderMark }], oUsed) := by
  refine ⟨_, rfl, ?_⟩
  simp only [transformFile, hfind, hparse, hfalsy, Bool.false_eq_true, if_false]
  cases htr : ext.transform f.text (clearSourceMapOptions { opts with
      filename := some (Json.str f.name), filenameRelative := some (Json.str f.name) }) with
  | thrown e => rfl
  | ok r =>
    have hm : jsTruthy r.map = false :=
      hresp f.text _ r rfl htr
    cases hmo : r.map with
    | none => simp [hmo, jsTruthy]
    | some mapJson =>
      have hmt : mapJson.truthy = false := by
        rw [hmo] at hm
        simpa [jsTruthy] using hm
      simp [jsTruthy, hmo, hmt]

/-- C10: If a located sidecar map's text is valid JSON parsing to a falsy value,
no error is raised and the file transformer behaves exactly as in the
map-absent case (with an engine that respects disabled map generation):
map generation disabled, residual map fields cleared, one output file. -/
theorem claim10_falsyMapJson (ext : Externals) (f : OutputFile) (opts : IOptions)
    (ctx ctx' : List OutputFile) (m : OutputFile) (v : Json)
    (hresp : respectsSourceMaps ext.transform)
    (hfind : findSourceMapFile f ctx = some m)
    (hparse : ext.jsonParse m.text = .ok v)
    (hfalsy : v.truthy = false)
    (hfind' : findSourceMapFile f ctx' = none) :
    transformFile ext f opts ctx = transformFile ext f opts ctx' := by
  obtain ⟨o1, ho1, h1⟩ := transformFile_falsyMap ext f opts ctx m v hresp hfind hparse hfalsy
  obtain ⟨o2, ho2, h2⟩ := transformFile_noMap ext f opts ctx' hfind'
  rw [h1, h2, ho1, ho2]

/-- A parse failure on the located sidecar map is a thrown error for that
file's `transformFile` call. -/
theorem transformFile_badMap (ext : Externals) (f : OutputFile) (opts : IOptions)
    (ctx : List OutputFile) (m : OutputFile) (e : String)
    (hfind : findSourceMapFile f ctx = some m)
    (hparse : ext.jsonParse m.text = .thrown e) :
    transformFile ext f opts ctx = .thrown e := by
  simp only [transformFile, hfind, hparse]

theorem runBatch_badMap (ext : Externals) (ctx : List OutputFile)
    (f m : OutputFile) (e : String)
    (ht : shouldTransformFile f.name = true)
    (hfind : findSourceMapFile f ctx = some m)
    (hparse : ext.jsonParse m.text = .thrown e) :
    ∀ (l : List OutputFile) (opts : IOptions), f ∈ l →
      ∃ e', BabelPlugin.runBatch ext ctx l opts = .thrown e' := by
  intro l
  induction l with
  | nil => intro opts hf; exact absurd hf (List.not_mem_nil f)
  | cons g gs ih =>
    intro opts hf
    rcases List.mem_cons.mp hf with hg | hgs
    · subst hg
      refine ⟨e, ?_⟩
      simp [BabelPlugin.runBatch, ht, transformFile_badMap ext f opts ctx m e hfind hparse]
    · by_cases htg : shouldTransformFile g.name = true
      · cases htrg : transformFile ext g opts ctx with
        | thrown e' =>
          exact ⟨e', by simp [BabelPlugin.runBatch, htg, htrg]⟩
        | ok p =>
          obtain ⟨e', he'⟩ := ih p.2 hgs
          exact ⟨e', by simp [BabelPlugin.runBatch, htg, htrg, he']⟩
      · by_cases hdg : shouldDiscardFile g.name = true
        · obtain ⟨e', he'⟩ := ih opts hgs
          exact ⟨e', by simp [BabelPlugin.runBatch, htg, hdg, he']⟩
        · obtain ⟨e', he'⟩ := ih opts hgs
          exact ⟨e', by simp [BabelPlugin.runBatch, htg, hdg, he']⟩

/-- C5: If any located sidecar map file's text fails to parse as JSON, the whole
batch transform invocation is rejected — no output batch is produced. -/
theorem claim5_badMapJsonFatal (ext : Externals) (batch : List OutputFile)
    (opts : IOptions) (f m : OutputFile) (e : String)
    (hf : f ∈ batch) (ht : shouldTransformFile f.name = true)
    (hfind : findSourceMapFile f batch = some m)
    (hparse : ext.jsonParse m.text = .thrown e) :
    ∃ e', BabelPlugin.babelTransform ext opts batch = .thrown e' := by
  obtain ⟨e', he'⟩ := runBatch_badMap ext batch f m e ht hfind hparse batch opts hf
  exact ⟨e', by simp [BabelPlugin.babelTransform, he']⟩

/-- C8: Every successful `transformFile` call emits a source output with the
input file's `name` and `writeByteOrderMark`, and — when a map output is
produced — a map output with the input map file's `name` and
`writeByteOrderMark`; only the `text` fields differ.  (Inputs are values in
this embedding; the source likewise never mutates an input `OutputFile`.) -/
theorem claim8_frame (ext : Externals) (f : OutputFile) (opts : IOptions)
    (ctx : List OutputFile) (outs : List OutputFile) (opts' : IOptions)
    (h : transformFile ext f opts ctx = .ok (outs, opts')) :
    ∃ srcOut, srcOut.name = f.name ∧ srcOut.writeByteOrderMark = f.writeByteOrderMark ∧
      (outs = [srcOut] ∨ ∃ m mapOut, findSourceMapFile f ctx = some m ∧
        outs = [srcOut, mapOut] ∧ mapOut.name = m.name ∧
        mapOut.writeByteOrderMark = m.writeByteOrderMark) := by
  cases hfind : findSourceMapFile f ctx with
  | none =>
    obtain ⟨oUsed, _, heq⟩ := transformFile_noMap ext f opts ctx hfind
    rw [heq] at h
    split at h
    · exact absurd h (by simp)
    · simp only [JsResult.ok.injEq, Prod.mk.injEq] at h
      refine ⟨_, ?_, ?_, Or.inl h.1.symm⟩ <;> rfl
  | some m =>
    cases hparse : ext.jsonParse m.text with
    | thrown e =>
      rw [transformFile_badMap ext f opts ctx m e hfind hparse] at h
      exact absurd h (by simp)
    | ok v =>
      simp only [transformFile, hfind, hparse] at h
      cases hvt : v.truthy with
      | false =>
        simp only [hvt, Bool.false_eq_true, if_false] at h
        split at h
        · exact absurd h (by simp)
        · rename_i r htr
          cases hmo : r.map with
          | none =>
            rw [hmo] at h
            simp only [JsResult.ok.injEq, Prod.mk.injEq] at h
            refine ⟨_, ?_, ?_, Or.inl h.1.symm⟩ <;> rfl
          | some mapJson =>
            rw [hmo] at h
            cases hmt : mapJson.truthy with
            | false =>
              simp only [hmt, Bool.false_eq_true, if_false, JsResult.ok.injEq,
                Prod.mk.injEq] at h
              refine ⟨_, ?_, ?_, Or.inl h.1.symm⟩ <;> rfl
            | true =>
              simp only [hmt, if_true, JsResult.ok.injEq, Prod.mk.injEq] at h
              refine ⟨_, ?_, ?_, Or.inr ⟨m, _, rfl, h.1.symm, ?_, ?_⟩⟩ <;> rfl
      | true =>
        simp only [hvt, if_true, setSourceMapOptions] at h
        cases hidx : jsIndex0 (v.getField "sources") with
        | thrown e => rw [hidx] at h; exact absurd h (by simp)
        | ok s0 =>
          simp only [hidx] at h
          split at h
          · exact absurd h (by simp)
          · rename_i r htr
            cases hmo : r.map with
            | none =>
              rw [hmo] at h
              simp only [JsResult.ok.injEq, Prod.mk.injEq] at h
              refine ⟨_, ?_, ?_, Or.inl h.1.symm⟩ <;> rfl
            | some mapJson =>
              rw [hmo] at h
              cases hmt : mapJson.truthy with
              | false =>
                simp only [hmt, Bool.false_eq_true, if_false, JsResult.ok.injEq,
                  Prod.mk.injEq] at h
                refine ⟨_, ?_, ?_, Or.inl h.1.symm⟩ <;> rfl
              | true =>
                simp only [hmt, if_true, JsResult.ok.injEq, Prod.mk.injEq] at h
                refine ⟨_, ?_, ?_, Or.inr ⟨m, _, rfl, h.1.symm, ?_, ?_⟩⟩ <;> rfl

theorem runBatch_shape (ext : Externals) (ctx : List OutputFile) :
    ∀ (l : List OutputFile) (opts : IOptions) (out : List OutputFile) (opts'' : IOptions),
      BabelPlugin.runBatch ext ctx l opts = .ok (out, opts'') →
      ∃ pieces, out = pieces.flatten ∧ List.Forall₂ (classifiedPiece ext ctx) l pieces := by
  intro l
  induction l with
  | nil =>
    intro opts out opts'' h
    simp only [BabelPlugin.runBatch, JsResult.ok.injEq, Prod.mk.injEq] at h
    exact ⟨[], by simp [h.1.symm], List.Forall₂.nil⟩
  | cons g gs ih =>
    intro opts out opts'' h
    by_cases htg : shouldTransformFile g.name = true
    · cases htr : transformFile ext g opts ctx with
      | thrown e => simp [BabelPlugin.runBatch, htg, htr] at h
      | ok p =>
        obtain ⟨outs1, opts1⟩ := p
        cases hrest : BabelPlugin.runBatch ext ctx gs opts1 with
        | thrown e => simp [BabelPlugin.runBatch, htg, htr, hrest] at h
        | ok q =>
          obtain ⟨rest, opts2⟩ := q
          simp only [BabelPlugin.runBatch, htg, if_true, htr, hrest, JsResult.ok.injEq,
            Prod.mk.injEq] at h
          obtain ⟨pieces, hj, hforall⟩ := ih opts1 rest opts2 hrest
          refine ⟨outs1 :: pieces, ?_, ?_⟩
          · simp [← h.1, hj]
          · refine List.Forall₂.cons ?_ hforall
            simp only [classifiedPiece, htg, if_true]
            exact ⟨opts, opts1, htr⟩
    · by_cases hdg : shouldDiscardFile g.name = true
      · simp only [BabelPlugin.runBatch, htg, hdg, Bool.false_eq_true, if_true, if_false] at h
        obtain ⟨pieces, hj, hforall⟩ := ih opts out opts'' h
        refine ⟨[] :: pieces, by simp [hj], ?_⟩
        refine List.Forall₂.cons ?_ hforall
        simp [classifiedPiece, htg, hdg]
      · cases hrest : BabelPlugin.runBatch ext ctx gs opts with
        | thrown e => simp [BabelPlugin.runBatch, htg, hdg, hrest] at h
        | ok q =>
          obtain ⟨rest, opts2⟩ := q
          simp only [BabelPlugin.runBatch, htg, hdg, Bool.false_eq_true, if_false, hrest,
            JsResult.ok.injEq, Prod.mk.injEq] at h
          obtain ⟨pieces, hj, hforall⟩ := ih opts rest opts2 hrest
          refine ⟨[g] :: pieces, by simp [← h.1, hj], ?_⟩
          refine List.Forall₂.cons ?_ hforall
          simp [classifiedPiece, htg, hdg]

/-- C1: The batch transform classifies each input file by name suffix into
exactly one of three outcomes — `.js`/`.jsx` files are transformed, `.map`
files are dropped, every other file is included unchanged — and the output is
the in-order concatenation of the per-file outcomes (original relative
positions preserved). -/
theorem claim1_classification (ext : Externals) (opts : IOptions)
    (batch out : List OutputFile)
    (h : BabelPlugin.babelTransform ext opts batch = .ok out) :
    ∃ pieces : List (List OutputFile), out = pieces.flatten ∧
      List.Forall₂ (fun f piece =>
        ((strEndsWith f.name ".js" = true ∨ strEndsWith f.name ".jsx" = true) →
          ∃ o o', transformFile ext f o batch = .ok (piece, o')) ∧
        (strEndsWith f.name ".map" = true → piece = []) ∧
        (strEndsWith f.name ".js" = false → strEndsWith f.name ".jsx" = false →
          strEndsWith f.name ".map" = false → piece = [f]))
        batch pieces := by
  cases hrb : BabelPlugin.runBatch ext batch batch opts with
  | thrown e => simp [BabelPlugin.babelTransform, hrb] at h
  | ok p =>
    obtain ⟨outs0, optsEnd⟩ := p
    simp only [BabelPlugin.babelTransform, hrb, JsResult.ok.injEq] at h
    obtain ⟨pieces, hj, hforall⟩ := runBatch_shape ext batch batch opts outs0 optsEnd hrb
    refine ⟨pieces, by rw [← h, hj], hforall.imp ?_⟩
    intro f piece hc
    refine ⟨?_, ?_, ?_⟩
    · intro hor
      have ht : shouldTransformFile f.name = true := by
        cases hor with
        | inl h1 => simp [shouldTransformFile, h1]
        | inr h2 => simp [shouldTransformFile, h2]
      simpa only [classifiedPiece, ht, if_true] using hc
    · intro hm
      have hd : shouldDiscardFile f.name = true := hm
      have ht := shouldDiscard_not_transform hd
      simpa only [classifiedPiece, ht, hd, Bool.false_eq_true, if_false, if_true] using hc
    · intro hjs hjx hm
      have ht : shouldTransformFile f.name = false := by
        simp [shouldTransformFile, hjs, hjx]
      have hd : shouldDiscardFile f.name = false := hm
      simpa only [classifiedPiece, ht, hd, Bool.false_eq_true, if_false] using hc

/-! ## Context and options congruence lemmas (configuration reset) -/

/-- Lemma: `transformFile` depends on the batch only through the map locator. -/
theorem transformFile_ctx_congr (ext : Externals) (f : OutputFile) (opts : IOptions)
    (ctx₁ ctx₂ : List OutputFile)
    (h : findSourceMapFile f ctx₁ = findSourceMapFile f ctx₂) :
    transformFile ext f opts ctx₁ = transformFile ext f opts ctx₂ := by
  simp only [transformFile, h]

/-- Lemma: `transformFile` never changes the options fields it does not own:
`ast`, `shouldPrintComment` and the opaque remainder survive unchanged. -/
theorem transformFile_base (ext : Externals) (f : OutputFile) (opts : IOptions)
    (ctx : List OutputFile) (outs : List OutputFile) (opts' : IOptions)
    (h : transformFile ext f opts ctx = .ok (outs, opts')) :
    opts'.ast = opts.ast ∧ opts'.shouldPrintComment = opts.shouldPrintComment ∧
      opts'.rest = opts.rest := by
  cases hfind : findSourceMapFile f ctx with
  | none =>
    obtain ⟨oUsed, hoUsed, heq⟩ := transformFile_noMap ext f opts ctx hfind
    rw [heq] at h
    split at h
    · exact absurd h (by simp)
    · simp only [JsResult.ok.injEq, Prod.mk.injEq] at h
      rw [← h.2, hoUsed]
      exact ⟨rfl, rfl, rfl⟩
  | some m =>
    cases hparse : ext.jsonParse m.text with
    | thrown e =>
      rw [transformFile_badMap ext f opts ctx m e hfind hparse] at h
      exact absurd h (by simp)
    | ok v =>
      simp only [transformFile, hfind, hparse] at h
      cases hvt : v.truthy with
      | false =>
        simp only [hvt, Bool.false_eq_true, if_false] at h
        split at h
        · exact absurd h (by simp)
        · rename_i r htr
          cases hmo : r.map with
          | none =>
            rw [hmo] at h
            simp only [JsResult.ok.injEq, Prod.mk.injEq] at h
            rw [← h.2]
            exact ⟨rfl, rfl, rfl⟩
          | some mapJson =>
            rw [hmo] at h
            cases hmt : mapJson.truthy <;>
              simp only [hmt, Bool.false_eq_true, if_false, if_true, JsResult.ok.injEq,
                Prod.mk.injEq] at h <;>
              (rw [← h.2]; exact ⟨rfl, rfl, rfl⟩)
      | true =>
        simp only [hvt, if_true, setSourceMapOptions] at h
        cases hidx : jsIndex0 (v.getField "sources") with
        | thrown e =>
          simp only [hidx] at h
          exact absurd h (by simp)
        | ok s0 =>
          simp only [hidx] at h
          split at h
          · exact absurd h (by simp)
          · rename_i r htr
            cases hmo : r.map with
            | none =>
              rw [hmo] at h
              simp only [JsResult.ok.injEq, Prod.mk.injEq] at h
              rw [← h.2]
              exact ⟨rfl, rfl, rfl⟩
            | some mapJson =>
              rw [hmo] at h
              cases hmt : mapJson.truthy <;>
                simp only [hmt, Bool.false_eq_true, if_false, if_true, JsResult.ok.injEq,
                  Prod.mk.injEq] at h <;>
                (rw [← h.2]; exact ⟨rfl, rfl, rfl⟩)

/-- On a file without a sidecar map, two options states that agree outside the
fields `transformFile` itself resets produce identical results: the clearing
step erases any residue of a previous file's processing. -/
theorem transformFile_noMap_opts (ext : Externals) (f : OutputFile)
    (ctx : List OutputFile) (o₁ o₂ : IOptions)
    (hfind : findSourceMapFile f ctx = none)
    (hast : o₁.ast = o₂.ast) (hspc : o₁.shouldPrintComment = o₂.shouldPrintComment)
    (hrest : o₁.rest = o₂.rest) :
    transformFile ext f o₁ ctx = transformFile ext f o₂ ctx := by
  obtain ⟨u₁, hu₁, h₁⟩ := transformFile_noMap ext f o₁ ctx hfind
  obtain ⟨u₂, hu₂, h₂⟩ := transformFile_noMap ext f o₂ ctx hfind
  have huu : u₁ = u₂ := by
    rw [hu₁, hu₂]
    cases o₁
    cases o₂
    simp_all [clearSourceMapOptions]
  rw [h₁, h₂, huu]

theorem name_ne_name_map (s : String) : (s == s ++ ".map") = false := by
  simp only [beq_eq_false_iff_ne, ne_eq]
  intro h
  have hlen := congrArg String.length h
  have h4 : (".map" : String).length = 4 := rfl
  rw [String.length_append, h4] at hlen
  omega

theorem strEndsWith_append_map (s : String) : strEndsWith (s ++ ".map") ".map" = true := by
  simp only [strEndsWith, decide_eq_true_eq]
  show ".map".data <:+ s.data ++ ".map".data
  exact List.suffix_append _ _

/-- A file is never its own sidecar map. -/
theorem findSourceMapFile_self (f : OutputFile) : findSourceMapFile f [f] = none := by
  unfold findSourceMapFile
  by_cases h : strEndsWith f.name ".map" = true
  · simp [h]
  · simp [h, List.filter_cons, name_ne_name_map]

/-- In a batch headed by a transformable file followed directly by its sidecar
map, the locator finds exactly that sidecar (first match wins). -/
theorem findSourceMapFile_cons_self (f m1 : OutputFile) (l : List OutputFile)
    (ht : shouldTransformFile f.name = true)
    (hm1 : m1.name = f.name ++ ".map") :
    findSourceMapFile f (f :: m1 :: l) = some m1 := by
  have hnm : strEndsWith f.name ".map" = false := by
    cases hcase : strEndsWith f.name ".map" with
    | false => rfl
    | true =>
      rw [shouldDiscard_not_transform hcase] at ht
      exact absurd ht (by simp)
  unfold findSourceMapFile
  simp [hnm, List.filter_cons, name_ne_name_map, hm1]

/-- C4 (amended): for a batch `[f1, m1, f2]` where `m1` is `f1`'s sidecar map
and `f2` has no sidecar in the batch, the batch transform equals the sequencing
of the transform of `[f1, m1]` and the transform of `[f2]` alone: the
map-related configuration set while processing the first file does not leak
into the processing of the second. -/
theorem claim4_noLeakage (ext : Externals) (opts : IOptions) (f1 m1 f2 : OutputFile)
    (ht1 : shouldTransformFile f1.name = true)
    (hm1 : m1.name = f1.name ++ ".map")
    (hno2 : findSourceMapFile f2 [f1, m1, f2] = none) :
    BabelPlugin.babelTransform ext opts [f1, m1, f2] =
      jsSeq (BabelPlugin.babelTransform ext opts [f1, m1])
            (BabelPlugin.babelTransform ext opts [f2]) := by
  have hfind3 : findSourceMapFile f1 [f1, m1, f2] = some m1 :=
    findSourceMapFile_cons_self f1 m1 [f2] ht1 hm1
  have hfind2 : findSourceMapFile f1 [f1, m1] = some m1 :=
    findSourceMapFile_cons_self f1 m1 [] ht1 hm1
  have htf1 : transformFile ext f1 opts [f1, m1, f2] = transformFile ext f1 opts [f1, m1] :=
    transformFile_ctx_congr ext f1 opts _ _ (hfind3.trans hfind2.symm)
  have hdm1 : shouldDiscardFile m1.name = true := by
    simp only [shouldDiscardFile, hm1]
    exact strEndsWith_append_map f1.name
  have htm1 : shouldTransformFile m1.name = false := shouldDiscard_not_transform hdm1
  cases htr1 : transformFile ext f1 opts [f1, m1] with
  | thrown e =>
    simp [BabelPlugin.babelTransform, BabelPlugin.runBatch, ht1, htf1, htr1, jsSeq]
  | ok p =>
    obtain ⟨outs1, opts1⟩ := p
    have hbase := transformFile_base ext f1 opts [f1, m1] outs1 opts1 htr1
    by_cases ht2 : shouldTransformFile f2.name = true
    · have htf2 : transformFile ext f2 opts1 [f1, m1, f2] = transformFile ext f2 opts [f2] := by
        have e1 : transformFile ext f2 opts1 [f1, m1, f2] = transformFile ext f2 opts1 [f2] :=
          transformFile_ctx_congr ext f2 opts1 _ _
            (hno2.trans (findSourceMapFile_self f2).symm)
        have e2 : transformFile ext f2 opts1 [f2] = transformFile ext f2 opts [f2] :=
          transformFile_noMap_opts ext f2 [f2] opts1 opts (findSourceMapFile_self f2)
            hbase.1 hbase.2.1 hbase.2.2
        exact e1.trans e2
      cases htr2 : transformFile ext f2 opts [f2] with
      | thrown e =>
        simp [BabelPlugin.babelTransform, BabelPlugin.runBatch, ht1, htf1, htr1, htm1, hdm1,
          ht2, htf2, htr2, jsSeq]
      | ok q =>
        obtain ⟨outs2, opts2⟩ := q
        simp [BabelPlugin.babelTransform, BabelPlugin.runBatch, ht1, htf1, htr1, htm1, hdm1,
          ht2, htf2, htr2, jsSeq]
    · by_cases hd2 : shouldDiscardFile f2.name = true
      · simp [BabelPlugin.babelTransform, BabelPlugin.runBatch, ht1, htf1, htr1, htm1, hdm1,
          ht2, hd2, jsSeq]
      · simp [BabelPlugin.babelTransform, BabelPlugin.runBatch, ht1, htf1, htr1, htm1, hdm1,
          ht2, hd2, jsSeq]

/-- C4 (as stated, refuted): in the two-file batch `[a.js, a.js.map]` the first
file has a sidecar map in the batch and the second has none, yet the pair run
is not the sequencing of the two single-file runs — run alone, `a.js` cannot
see its sidecar map, so it loses the regenerated map and the trailer comment. -/
theorem claim4_counterexample :
    (findSourceMapFile ⟨"a.js", "x", false⟩
        [⟨"a.js", "x", false⟩, ⟨"a.js.map", sampleMapText, false⟩] =
      some ⟨"a.js.map", sampleMapText, false⟩) ∧
    (findSourceMapFile ⟨"a.js.map", sampleMapText, false⟩
        [⟨"a.js", "x", false⟩, ⟨"a.js.map", sampleMapText, false⟩] = none) ∧
    ¬ (BabelPlugin.babelTransform toyExternalsAlways {}
          [⟨"a.js", "x", false⟩, ⟨"a.js.map", sampleMapText, false⟩] =
        jsSeq (BabelPlugin.babelTransform toyExternalsAlways {} [⟨"a.js", "x", false⟩])
              (BabelPlugin.babelTransform toyExternalsAlways {}
                [⟨"a.js.map", sampleMapText, false⟩])) := by
  decide

/-- Witness instantiating `claim4_noLeakage` on concrete files. -/
theorem claim4_witness :
    BabelPlugin.babelTransform toyExternalsAlways {}
        [⟨"a.js", "ax", false⟩, ⟨"a.js.map", sampleMapText, true⟩, ⟨"d.txt", "dd", false⟩] =
      jsSeq (BabelPlugin.babelTransform toyExternalsAlways {}
              [⟨"a.js", "ax", false⟩, ⟨"a.js.map", sampleMapText, true⟩])
            (BabelPlugin.babelTransform toyExternalsAlways {} [⟨"d.txt", "dd", false⟩]) :=
  claim4_noLeakage toyExternalsAlways {} ⟨"a.js", "ax", false⟩
    ⟨"a.js.map", sampleMapText, true⟩ ⟨"d.txt", "dd", false⟩
    (by decide) (by decide) (by decide)

/-- The engine that never produces a map trivially respects disabled map
generation. -/
theorem toyTransformNever_respects : respectsSourceMaps toyTransformNever := by
  intro text o r _ h
  cases h
  rfl

/-- Witness instantiating `claim1_classification` on a concrete batch. -/
theorem claim1_witness :
    ∃ pieces : List (List OutputFile),
      [⟨"d.txt", "dt", false⟩, ⟨"e.jsx", "ex", true⟩] = pieces.flatten ∧
      List.Forall₂ (fun f piece =>
        ((strEndsWith f.name ".js" = true ∨ strEndsWith f.name ".jsx" = true) →
          ∃ o o', transformFile toyExternalsNever f o
              [⟨"d.txt", "dt", false⟩, ⟨"e.jsx", "ex", true⟩, ⟨"f.js.map", "mm", false⟩] =
            .ok (piece, o')) ∧
        (strEndsWith f.name ".map" = true → piece = []) ∧
        (strEndsWith f.name ".js" = false → strEndsWith f.name ".jsx" = false →
          strEndsWith f.name ".map" = false → piece = [f]))
        [⟨"d.txt", "dt", false⟩, ⟨"e.jsx", "ex", true⟩, ⟨"f.js.map", "mm", false⟩] pieces :=
  claim1_classification toyExternalsNever {} _ _ (by decide)

/-- Witness instantiating `claim2_mapPairing` on concrete files. -/
theorem claim2_witness :
    BabelPlugin.babelTransform toyExternalsAlways {}
        [⟨"a.js", "code2", false⟩, ⟨"a.js.map", sampleMapText, true⟩] =
      .ok [⟨"a.js", "code2" ++ "\n//# sourceMappingURL=a.js.map", false⟩,
           ⟨"a.js.map", toyExternalsAlways.stringify (Json.obj []), true⟩] :=
  claim2_mapPairing toyExternalsAlways {} "code2" sampleMapText false true
    sampleMapJson (Json.obj []) (some (Json.str "a.ts")) ⟨"code2", some (Json.obj [])⟩
    rfl rfl rfl (fun _ => rfl) rfl rfl

/-- Witness instantiating `claim3_mapDrop` on concrete files. -/
theorem claim3_witness :
    BabelPlugin.babelTransform toyExternalsNever {}
        [⟨"c.js", "cc", true⟩, ⟨"c.js.map", sampleMapText, false⟩] =
      .ok [⟨"c.js", "cc", true⟩] :=
  claim3_mapDrop toyExternalsNever {} "cc" sampleMapText true false
    sampleMapJson (some (Json.str "a.ts")) ⟨"cc", none⟩
    rfl rfl rfl (fun _ => rfl) rfl

/-- Witness instantiating `claim5_badMapJsonFatal` on concrete files. -/
theorem claim5_witness :
    ∃ e', BabelPlugin.babelTransform toyExternalsNever {}
        [⟨"g.js", "gg", false⟩, ⟨"g.js.map", "not json", false⟩] = .thrown e' :=
  claim5_badMapJsonFatal toyExternalsNever _ {} ⟨"g.js", "gg", false⟩
    ⟨"g.js.map", "not json", false⟩ "SyntaxError: Unexpected token"
    (by decide) (by decide) rfl rfl

/-- Witness instantiating `claim7_mapAbsence` on concrete files. -/
theorem claim7_witness :
    ∃ o r, toyExternalsNever.transform "bb" o = .ok r ∧
      ([⟨"b.js", "bb", true⟩] : List OutputFile) = [⟨"b.js", r.code, true⟩] :=
  claim7_mapAbsence toyExternalsNever {} "bb" true [⟨"b.js", "bb", true⟩]
    toyTransformNever_respects (by decide)

/-- Witness instantiating `claim8_frame` on concrete files. -/
theorem claim8_witness :
    ∃ srcOut : OutputFile, srcOut.name = "h.js" ∧ srcOut.writeByteOrderMark = false ∧
      (([⟨"h.js", "hh", false⟩] : List OutputFile) = [srcOut] ∨
        ∃ m mapOut, findSourceMapFile ⟨"h.js", "hh", false⟩ [⟨"h.js", "hh", false⟩] = some m ∧
          ([⟨"h.js", "hh", false⟩] : List OutputFile) = [srcOut, mapOut] ∧ mapOut.name = m.name ∧
          mapOut.writeByteOrderMark = m.writeByteOrderMark) :=
  claim8_frame toyExternalsNever ⟨"h.js", "hh", false⟩ {} [⟨"h.js", "hh", false⟩]
    [⟨"h.js", "hh", false⟩]
    { filename := some (Json.str "h.js"), filenameRelative := some (Json.str "h.js"),
      sourceMaps := some (Json.bool false) }
    rfl

/-- Witness instantiating `claim10_falsyMapJson` on concrete files. -/
theorem claim10_witness :
    transformFile toyExternalsNever ⟨"k.js", "kk", false⟩ {}
        [⟨"k.js", "kk", false⟩, ⟨"k.js.map", "null", false⟩] =
      transformFile toyExternalsNever ⟨"k.js", "kk", false⟩ {} [⟨"k.js", "kk", false⟩] :=
  claim10_falsyMapJson toyExternalsNever ⟨"k.js", "kk", false⟩ {} _ _
    ⟨"k.js.map", "null", false⟩ Json.null toyTransformNever_respects rfl rfl rfl rfl
